import Mathlib

/-!
Verification of the core of the Face-Recognition-Attendance project.

The development shallowly embeds the two core components:

* the attendance ledger (attendance_manager.py): per-date partitions persisted
  as one file per calendar date, with mark_attendance /
  get_attendance_by_date / get_all_attendance_dates;
* the recognizer front end (face_recognition_system.py): the per-face
  classification step of recognize_faces, the enrollment bookkeeping of
  add_new_face / load_known_faces.

File-system effects are made explicit: the ledger store is the finite map
from date strings to partition files (an association list mirroring the
directory of Attendance_YYYY-MM-DD.xlsx files), and a file may be readable
or unreadable (a read raises and is caught).  A write may succeed or fail;
the writeOk flag of mark_attendance is the outcome of the to_excel call.
-/

namespace FaceAttendance

/-- One attendance row, columns Name, Date, Time of the persisted sheet. -/
structure Record where
  name : String
  date : String
  time : String
deriving DecidableEq, Repr

/-- A persisted per-date partition file.  A file is readable, or unreadable
(corrupt: pd.read_excel raises; the recs argument records the bytes that were
last persisted into it, invisible to a reader). -/
inductive PartFile where
  | readable (recs : List Record)
  | unreadable (recs : List Record)
deriving DecidableEq, Repr

/-- The attendance directory: one entry per existing Attendance_date.xlsx
file, keyed by the date string. -/
abbrev Store := List (String × PartFile)

/-- The empty attendance directory. -/
def emptyStore : Store := []

/-- Records persisted in a partition file, readable or not. -/
def partRecords : PartFile → List Record
  | .readable recs => recs
  | .unreadable recs => recs

/-- Look up the partition file for a date (file existence plus content). -/
def lookupPart : Store → String → Option PartFile
  | [], _ => none
  | (d₀, p) :: rest, d => if d₀ = d then some p else lookupPart rest d

/-- Overwrite (or create) the partition file for a date, as df.to_excel does. -/
def writePart : Store → String → List Record → Store
  | [], d, recs => [(d, PartFile.readable recs)]
  | (d₀, p) :: rest, d, recs =>
    if d₀ = d then (d₀, PartFile.readable recs) :: rest
    else (d₀, p) :: writePart rest d recs

/-- Reading a partition as the source does: a missing file or a read failure
degrades to the empty record list (the except branch builds an empty frame). -/
def readPartition (s : Store) (d : String) : List Record :=
  match lookupPart s d with
  | some (PartFile.readable recs) => recs
  | some (PartFile.unreadable _) => []
  | none => []

/-- AttendanceManager.get_attendance_by_date: load the sheet for a date,
degrading to no records when the file is absent or unreadable. -/
def get_attendance_by_date (s : Store) (d : String) : List Record :=
  readPartition s d

/-- Result dictionary of mark_attendance: the success flag and the time field
(the previously recorded time on a duplicate, none on a write failure). -/
structure MarkResult where
  success : Bool
  time : Option String
deriving DecidableEq, Repr

/-- AttendanceManager.mark_attendance at a given current date and time.
Reads today's sheet (empty on absence or read failure), rejects when the name
already appears (returning the first matching row's time), otherwise appends
the new row and persists the whole sheet; writeOk is the outcome of the
to_excel call, a failed write reports success := false with no time. -/
def mark_attendance (s : Store) (nm date time : String) (writeOk : Bool) :
    MarkResult × Store :=
  let df := readPartition s date
  if nm ∈ df.map Record.name then
    ({ success := false, time := (df.find? fun r => r.name == nm).map Record.time }, s)
  else
    if writeOk then
      ({ success := true, time := some time },
        writePart s date (df ++ [{ name := nm, date := date, time := time }]))
    else
      ({ success := false, time := none }, s)

/-- AttendanceManager.get_all_attendance_dates: the dates of all existing
partition files, sorted in reverse (descending) order; date strings are
compared as Python compares str, lexicographically on their characters. -/
def get_all_attendance_dates (s : Store) : List String :=
  List.insertionSort (fun a b => b.data ≤ a.data) (s.map Prod.fst)

/-- External corruption of the partition file for one date: the persisted
bytes stay what they were but reads now fail. -/
def corruptFile : PartFile → PartFile
  | .readable recs => .unreadable recs
  | .unreadable recs => .unreadable recs

/-- Corrupt the file of one date, leaving every other file alone. -/
def corruptAt (s : Store) (d : String) : Store :=
  s.map fun e => if e.1 = d then (e.1, corruptFile e.2) else e

/-- Ledger states reachable from an empty attendance directory by
mark_attendance calls (any name, clock value and write outcome), allowing a
file to become unreadable in between. -/
inductive Reachable : Store → Prop
  | init : Reachable emptyStore
  | mark {s : Store} (nm date time : String) (writeOk : Bool) :
      Reachable s → Reachable (mark_attendance s nm date time writeOk).2
  | corrupt {s : Store} (d : String) :
      Reachable s → Reachable (corruptAt s d)

/-- Folding mark_attendance over a list of rows, every write succeeding. -/
def markList : List Record → Store → Store
  | [], s => s
  | r :: rs, s => markList rs (mark_attendance s r.name r.date r.time true).2

/-- The trained recognizer state of FaceRecognitionSystem: the training
samples (label, descriptor) in enrollment order, the label-to-name map built
by load_known_faces, and the is_trained flag.  Descriptors are abstract; the
distance metric is passed to the classification functions. -/
structure Gallery (α : Type) where
  samples : List (Nat × α)
  label_map : List (Nat × String)
  is_trained : Bool

/-- Running minimum of predict: fold the remaining samples, replacing the
best (label, distance) pair only on a strictly smaller distance, so the
sample first encountered in enrollment order wins ties. -/
def predictAux (dist : α → α → ℚ) (q : α) : List (Nat × α) → Nat × ℚ → Nat × ℚ
  | [], best => best
  | sp :: rest, best =>
    predictAux dist q rest
      (if dist sp.2 q < best.2 then (sp.1, dist sp.2 q) else best)

/-- Modelled from the spec: cv2.face.LBPHFaceRecognizer.predict is library
code outside this repository; per the Matcher design it is the linear-scan
nearest-neighbor search returning the label of the training sample at
globally minimum distance to the query, ties broken by enrollment order.
The value on an empty sample list is never consulted by the source (predict
runs only when is_trained holds). -/
def predict (dist : α → α → ℚ) (q : α) : List (Nat × α) → Nat × ℚ
  | [] => (0, 999)
  | sp :: rest => predictAux dist q rest (sp.1, dist sp.2 q)

/-- Python label_map.get(label, "Unknown"): the name registered for a label,
defaulting to Unknown. -/
def lookupLabel (m : List (Nat × String)) (l : Nat) : String :=
  match m.find? fun e => e.1 == l with
  | some e => e.2
  | none => "Unknown"

/-- One entry of the result list of recognize_faces. -/
structure FaceResult where
  name : String
  confidence : ℚ
  distance : ℚ
deriving DecidableEq, Repr

/-- Per-face classification step of FaceRecognitionSystem.recognize_faces:
name defaults to Unknown with confidence 0; when the recognizer is trained,
predict the nearest label and distance, accept on distance strictly below
the threshold with confidence max(0, 1 - distance/threshold); the reported
distance defaults to the sentinel 999 when untrained. -/
def recognize_face (dist : α → α → ℚ) (g : Gallery α) (threshold : ℚ) (q : α) :
    FaceResult :=
  if g.is_trained then
    let p := predict dist q g.samples
    if p.2 < threshold then
      { name := lookupLabel g.label_map p.1
        confidence := max 0 (1 - p.2 / threshold)
        distance := p.2 }
    else
      { name := "Unknown", confidence := 0, distance := p.2 }
  else
    { name := "Unknown", confidence := 0, distance := 999 }

/-- One per-person subdirectory of known_faces: its name and how many image
files it holds. -/
structure FaceDir where
  name : String
  images : Nat
deriving DecidableEq, Repr

/-- FaceRecognitionSystem.add_new_face: mkdir(exist_ok) the per-person
directory first, then (when the image loads and a face is found, faceOk)
copy the image into it; a failed load or detection adds no image. -/
def add_new_face (dirs : List FaceDir) (nm : String) (faceOk : Bool) :
    Bool × List FaceDir :=
  let dirs' := if dirs.any fun e => e.name == nm then dirs
               else dirs ++ [{ name := nm, images := 0 }]
  if faceOk then
    (true, dirs'.map fun e => if e.name == nm then { e with images := e.images + 1 } else e)
  else
    (false, dirs')

/-- Label assignment of load_known_faces: every per-person directory gets the
next dense label in iteration order, whether or not any of its images yields
a usable face. -/
def load_label_map (dirs : List FaceDir) : List (Nat × String) :=
  dirs.enum.map fun e => (e.1, e.2.name)

/-- Known-faces directory states reachable from an empty directory by
add_new_face calls. -/
inductive DirsReachable : List FaceDir → Prop
  | init : DirsReachable []
  | add {dirs : List FaceDir} (nm : String) (faceOk : Bool) :
      DirsReachable dirs → DirsReachable (add_new_face dirs nm faceOk).2

/-- Distance used by the concrete test data: absolute difference of rational
descriptors.  It is non-negative, symmetric and zero exactly on equal
descriptors. -/
def cexDist (x y : ℚ) : ℚ := max (x - y) (y - x)

/-- Concrete gallery in which two identities were enrolled with identical
descriptors: labels 0 (X) and 1 (Y) both trained on descriptor 1. -/
def cexGallery : Gallery ℚ :=
  { samples := [(0, 1), (1, 1)]
    label_map := [(0, "X"), (1, "Y")]
    is_trained := true }

/-- Concrete single-identity gallery: label 0 (A) trained on descriptor 5. -/
def witGallery : Gallery ℚ :=
  { samples := [(0, 5)]
    label_map := [(0, "A")]
    is_trained := true }

/-- Concrete untrained gallery. -/
def untrainedGallery : Gallery ℚ :=
  { samples := [], label_map := [], is_trained := false }

/-- Concrete store with two readable partitions, for the date-listing tests. -/
def twoDayStore : Store :=
  [("2024-01-01", PartFile.readable [{ name := "Alice", date := "2024-01-01", time := "09:00:00" }]),
   ("2024-01-02", PartFile.readable [{ name := "Bob", date := "2024-01-02", time := "10:00:00" }])]

/-- Concrete store whose only partition is unreadable but holds a persisted
row for Alice. -/
def corruptStore : Store :=
  [("2024-01-01", PartFile.unreadable [{ name := "Alice", date := "2024-01-01", time := "08:00:00" }])]

/-- Concrete batch of three rows across two dates with distinct
(name, date) keys. -/
def threeRecords : List Record :=
  [{ name := "Alice", date := "2024-01-01", time := "09:00:00" },
   { name := "Bob", date := "2024-01-01", time := "09:05:00" },
   { name := "Alice", date := "2024-01-02", time := "08:55:00" }]

theorem lookupPart_writePart (s : Store) (d : String) (recs : List Record)
    (d' : String) :
    lookupPart (writePart s d recs) d' =
      if d = d' then some (PartFile.readable recs) else lookupPart s d' := by
  induction s with
  | nil => simp [writePart, lookupPart]
  | cons e rest ih =>
    obtain ⟨d₀, p⟩ := e
    by_cases h₀ : d₀ = d
    · subst h₀
      by_cases h' : d₀ = d'
      · subst h'
        simp [writePart, lookupPart]
      · simp [writePart, lookupPart, h']
    · by_cases h' : d₀ = d'
      · subst h'
        have hne : ¬ d = d₀ := fun h => h₀ h.symm
        simp [writePart, lookupPart, h₀, hne]
      · simp [writePart, lookupPart, h₀, h', ih]

theorem readPartition_writePart (s : Store) (d : String) (recs : List Record)
    (d' : String) :
    readPartition (writePart s d recs) d' =
      if d = d' then recs else readPartition s d' := by
  unfold readPartition
  rw [lookupPart_writePart]
  by_cases h : d = d' <;> simp [h]

theorem lookupPart_corruptAt (s : Store) (d d' : String) :
    lookupPart (corruptAt s d) d' =
      if d = d' then (lookupPart s d').map corruptFile else lookupPart s d' := by
  induction s with
  | nil => simp [corruptAt, lookupPart]
  | cons e rest ih =>
    obtain ⟨d₀, p⟩ := e
    have hmap : corruptAt ((d₀, p) :: rest) d =
        (if d₀ = d then (d₀, corruptFile p) else (d₀, p)) :: corruptAt rest d := by
      simp only [corruptAt, List.map_cons]
    rw [hmap]
    by_cases h₀ : d₀ = d
    · rw [if_pos h₀]
      subst h₀
      by_cases h' : d₀ = d'
      · subst h'
        simp [lookupPart]
      · simp [lookupPart, h', ih]
    · rw [if_neg h₀]
      by_cases h' : d₀ = d'
      · subst h'
        have hne : ¬ d = d₀ := fun h => h₀ h.symm
        simp [lookupPart, hne]
      · simp [lookupPart, h', ih]

theorem readPartition_cases (s : Store) (d : String) :
    readPartition s d = [] ∨
    ∃ recs, lookupPart s d = some (PartFile.readable recs) ∧
      readPartition s d = recs := by
  unfold readPartition
  cases lookupPart s d with
  | none => exact Or.inl rfl
  | some q =>
    cases q with
    | readable recs => exact Or.inr ⟨recs, rfl, rfl⟩
    | unreadable recs => exact Or.inl rfl

theorem partRecords_corruptFile (p : PartFile) :
    partRecords (corruptFile p) = partRecords p := by
  cases p <;> rfl

theorem lookupPart_isSome_iff (s : Store) (d : String) :
    (lookupPart s d).isSome = true ↔ d ∈ s.map Prod.fst := by
  induction s with
  | nil => simp [lookupPart]
  | cons e rest ih =>
    obtain ⟨d₀, p⟩ := e
    by_cases h : d₀ = d
    · subst h
      simp [lookupPart]
    · have hne : d ≠ d₀ := fun h' => h h'.symm
      simp [lookupPart, h, hne, ih]

theorem mark_attendance_snd_cases (s : Store) (nm date time : String)
    (writeOk : Bool) :
    (mark_attendance s nm date time writeOk).2 = s ∨
    (nm ∉ (readPartition s date).map Record.name ∧ writeOk = true ∧
      (mark_attendance s nm date time writeOk).2 =
        writePart s date
          (readPartition s date ++ [{ name := nm, date := date, time := time }])) := by
  unfold mark_attendance
  by_cases h : nm ∈ (readPartition s date).map Record.name
  · left
    simp [h]
  · cases writeOk with
    | false => left; simp [h]
    | true => right; exact ⟨h, rfl, by simp [h]⟩

/-- C1: in every ledger state reachable by mark_attendance calls (with
arbitrary write outcomes and possible file corruption in between), the rows
persisted in any date's partition file carry pairwise distinct names. -/
theorem marked_partition_names_nodup (s : Store) (h : Reachable s)
    (d : String) (p : PartFile) (hp : lookupPart s d = some p) :
    ((partRecords p).map Record.name).Nodup := by
  induction h generalizing d p with
  | init => simp [emptyStore, lookupPart] at hp
  | mark nm date time writeOk _ ih =>
    rename_i s₀ _
    rcases mark_attendance_snd_cases s₀ nm date time writeOk with heq | ⟨hnm, _, heq⟩
    · rw [heq] at hp
      exact ih d p hp
    · rw [heq, lookupPart_writePart] at hp
      by_cases hd : date = d
      · rw [if_pos hd] at hp
        cases hp
        simp only [partRecords, List.map_append, List.map_cons, List.map_nil]
        rw [List.nodup_append]
        refine ⟨?_, List.nodup_singleton nm, ?_⟩
        · rcases readPartition_cases s₀ date with hre | ⟨recs, hq, hre⟩
          · simp [hre]
          · rw [hre]
            simpa [partRecords] using ih date _ hq
        · intro a ha
          simp only [List.mem_singleton]
          intro hEq
          exact hnm (hEq ▸ ha)
      · rw [if_neg hd] at hp
        exact ih d p hp
  | corrupt d₀ _ ih =>
    rename_i s₀ _
    rw [lookupPart_corruptAt] at hp
    by_cases hd : d₀ = d
    · rw [if_pos hd] at hp
      cases hq : lookupPart s₀ d with
      | none => rw [hq] at hp; exact Option.noConfusion hp
      | some q =>
        rw [hq] at hp
        simp only [Option.map_some'] at hp
        cases hp
        rw [partRecords_corruptFile]
        exact ih d q hq
    · rw [if_neg hd] at hp
      exact ih d p hp

/-- Witness for C1 at the ledger reached by one successful mark. -/
theorem marked_partition_names_nodup_wit :
    ((partRecords (PartFile.readable
        [{ name := "Alice", date := "2024-01-01", time := "09:00:00" }])).map
      Record.name).Nodup :=
  marked_partition_names_nodup
    (mark_attendance emptyStore "Alice" "2024-01-01" "09:00:00" true).2
    (Reachable.mark "Alice" "2024-01-01" "09:00:00" true Reachable.init)
    "2024-01-01"
    (PartFile.readable [{ name := "Alice", date := "2024-01-01", time := "09:00:00" }])
    (by decide)

theorem mark_attendance_fresh (s : Store) (nm date time : String)
    (h : nm ∉ (readPartition s date).map Record.name) :
    mark_attendance s nm date time true =
      ({ success := true, time := some time },
        writePart s date
          (readPartition s date ++ [{ name := nm, date := date, time := time }])) := by
  simp [mark_attendance, h]

theorem mark_attendance_dup (s : Store) (nm date time : String) (writeOk : Bool)
    (h : nm ∈ (readPartition s date).map Record.name) :
    mark_attendance s nm date time writeOk =
      ({ success := false,
         time := ((readPartition s date).find? fun r => r.name == nm).map Record.time },
        s) := by
  simp [mark_attendance, h]

theorem mark_attendance_writefail (s : Store) (nm date time : String)
    (h : nm ∉ (readPartition s date).map Record.name) :
    mark_attendance s nm date time false =
      ({ success := false, time := none }, s) := by
  simp [mark_attendance, h]

/-- C2: first-writer-wins idempotence of the ledger.  For a name not yet in
the day's partition, the first mark succeeds with its time, a second
same-day mark is rejected reporting the first time, and the partition then
holds exactly one row for that name, carrying the first time. -/
theorem mark_attendance_first_writer_wins (s : Store) (nm d t1 t2 : String)
    (h : nm ∉ (readPartition s d).map Record.name) :
    (mark_attendance s nm d t1 true).1.success = true ∧
    (mark_attendance s nm d t1 true).1.time = some t1 ∧
    (mark_attendance (mark_attendance s nm d t1 true).2 nm d t2 true).1.success = false ∧
    (mark_attendance (mark_attendance s nm d t1 true).2 nm d t2 true).1.time = some t1 ∧
    (readPartition (mark_attendance (mark_attendance s nm d t1 true).2 nm d t2 true).2 d).filter
        (fun r => r.name == nm) = [{ name := nm, date := d, time := t1 }] := by
  have h1 := mark_attendance_fresh s nm d t1 h
  have hread : readPartition (mark_attendance s nm d t1 true).2 d
      = readPartition s d ++ [{ name := nm, date := d, time := t1 }] := by
    rw [h1]
    simpa using
      readPartition_writePart s d
        (readPartition s d ++ [{ name := nm, date := d, time := t1 }]) d
  have hmem : nm ∈ (readPartition (mark_attendance s nm d t1 true).2 d).map Record.name := by
    rw [hread]; simp
  have hfind : (readPartition s d).find? (fun r => r.name == nm) = none := by
    rw [List.find?_eq_none]
    intro x hx
    simp only [beq_iff_eq]
    intro hxe
    exact h (List.mem_map.mpr ⟨x, hx, hxe⟩)
  have hfil : (readPartition s d).filter (fun r => r.name == nm) = [] := by
    rw [List.filter_eq_nil_iff]
    intro x hx
    simp only [beq_iff_eq]
    intro hxe
    exact h (List.mem_map.mpr ⟨x, hx, hxe⟩)
  have h2 := mark_attendance_dup (mark_attendance s nm d t1 true).2 nm d t2 true hmem
  refine ⟨by rw [h1], by rw [h1], by rw [h2], ?_, ?_⟩
  · rw [h2]
    simp only
    rw [hread, List.find?_append, hfind]
    simp
  · rw [h2]
    simp only
    rw [hread, List.filter_append, hfil]
    simp

/-- Witness for C2: Alice marked twice on the same date from an empty
ledger. -/
theorem mark_attendance_first_writer_wins_wit :
    (mark_attendance emptyStore "Alice" "2024-01-01" "09:00:00" true).1.success = true ∧
    (mark_attendance emptyStore "Alice" "2024-01-01" "09:00:00" true).1.time =
      some "09:00:00" ∧
    (mark_attendance (mark_attendance emptyStore "Alice" "2024-01-01" "09:00:00" true).2
        "Alice" "2024-01-01" "09:05:00" true).1.success = false ∧
    (mark_attendance (mark_attendance emptyStore "Alice" "2024-01-01" "09:00:00" true).2
        "Alice" "2024-01-01" "09:05:00" true).1.time = some "09:00:00" ∧
    (readPartition
        (mark_attendance (mark_attendance emptyStore "Alice" "2024-01-01" "09:00:00" true).2
          "Alice" "2024-01-01" "09:05:00" true).2 "2024-01-01").filter
        (fun r => r.name == "Alice") =
      [{ name := "Alice", date := "2024-01-01", time := "09:00:00" }] :=
  mark_attendance_first_writer_wins emptyStore "Alice" "2024-01-01" "09:00:00" "09:05:00"
    (by decide)

/-- C6: storage failures degrade instead of propagating.  Reading an absent
or unreadable partition yields the empty record list, and a mark whose
persist step fails reports success := false with no time. -/
theorem storage_failure_degrades (s : Store) (d nm t : String)
    (recs : List Record) :
    (lookupPart s d = none → get_attendance_by_date s d = []) ∧
    (lookupPart s d = some (PartFile.unreadable recs) → get_attendance_by_date s d = []) ∧
    (nm ∉ (readPartition s d).map Record.name →
      (mark_attendance s nm d t false).1 = { success := false, time := none }) := by
  refine ⟨?_, ?_, ?_⟩
  · intro h; simp [get_attendance_by_date, readPartition, h]
  · intro h; simp [get_attendance_by_date, readPartition, h]
  · intro h; rw [mark_attendance_writefail s nm d t h]

/-- Witness for C6: an absent partition, an unreadable partition and a
failed persist, all at concrete inputs. -/
theorem storage_failure_degrades_wit :
    get_attendance_by_date emptyStore "2024-01-01" = [] ∧
    get_attendance_by_date corruptStore "2024-01-01" = [] ∧
    (mark_attendance corruptStore "Bob" "2024-01-01" "09:00:00" false).1 =
      { success := false, time := none } := by
  refine ⟨?_, ?_, ?_⟩
  · exact (storage_failure_degrades emptyStore "2024-01-01" "Bob" "09:00:00" []).1 (by decide)
  · exact (storage_failure_degrades corruptStore "2024-01-01" "Bob" "09:00:00"
      [{ name := "Alice", date := "2024-01-01", time := "08:00:00" }]).2.1 (by decide)
  · exact (storage_failure_degrades corruptStore "2024-01-01" "Bob" "09:00:00" []).2.2
      (by decide)

/-- C10: marking while the day's file exists but cannot be read proceeds as
if the partition were empty: it accepts even a name already persisted that
day, and the persisted partition afterwards holds only the new row,
replacing everything previously persisted for the date. -/
theorem mark_attendance_unreadable_resets (s : Store) (nm d t : String)
    (recs : List Record) (h : lookupPart s d = some (PartFile.unreadable recs))
    (_hnm : nm ∈ recs.map Record.name) :
    (mark_attendance s nm d t true).1 = { success := true, time := some t } ∧
    lookupPart (mark_attendance s nm d t true).2 d =
      some (PartFile.readable [{ name := nm, date := d, time := t }]) := by
  have hread : readPartition s d = [] := by simp [readPartition, h]
  have hfresh : nm ∉ (readPartition s d).map Record.name := by simp [hread]
  have h1 := mark_attendance_fresh s nm d t hfresh
  constructor
  · rw [h1]
  · rw [h1]
    simp [lookupPart_writePart, hread]

/-- Witness for C10: Alice is persisted in an unreadable partition and is
nevertheless accepted again; the file afterwards holds only the new row. -/
theorem mark_attendance_unreadable_resets_wit :
    (mark_attendance corruptStore "Alice" "2024-01-01" "09:30:00" true).1 =
      { success := true, time := some "09:30:00" } ∧
    lookupPart (mark_attendance corruptStore "Alice" "2024-01-01" "09:30:00" true).2
        "2024-01-01" =
      some (PartFile.readable
        [{ name := "Alice", date := "2024-01-01", time := "09:30:00" }]) :=
  mark_attendance_unreadable_resets corruptStore "Alice" "2024-01-01" "09:30:00"
    [{ name := "Alice", date := "2024-01-01", time := "08:00:00" }] (by decide) (by decide)

theorem markList_readPartition (L : List Record) :
    ∀ (H : List Record) (s : Store),
      ((H ++ L).map fun r => (r.name, r.date)).Nodup →
      (∀ d, readPartition s d = H.filter fun r => r.date == d) →
      ∀ d, readPartition (markList L s) d = (H ++ L).filter fun r => r.date == d := by
  induction L with
  | nil =>
    intro H s _ hs d
    simpa [markList] using hs d
  | cons r rs ih =>
    intro H s hnd hs d
    have hdf : readPartition s r.date = H.filter fun x => x.date == r.date := hs r.date
    have hfresh : r.name ∉ (readPartition s r.date).map Record.name := by
      rw [hdf]
      intro hmem
      rcases List.mem_map.mp hmem with ⟨x, hxf, hxn⟩
      rcases List.mem_filter.mp hxf with ⟨hxH, hxd⟩
      have hxd' : x.date = r.date := by simpa using hxd
      have hpair : (r.name, r.date) ∈ H.map fun y => (y.name, y.date) :=
        List.mem_map.mpr ⟨x, hxH, by rw [hxn, hxd']⟩
      rw [List.map_append] at hnd
      have hdisj := (List.nodup_append.mp hnd).2.2
      exact hdisj hpair (by simp)
    have h1 := mark_attendance_fresh s r.name r.date r.time hfresh
    have hrec : ({ name := r.name, date := r.date, time := r.time } : Record) = r := rfl
    have hstep : ∀ d', readPartition (mark_attendance s r.name r.date r.time true).2 d'
        = (H ++ [r]).filter fun x => x.date == d' := by
      intro d'
      rw [h1, readPartition_writePart]
      by_cases hd' : r.date = d'
      · rw [if_pos hd']
        subst hd'
        rw [hdf, List.filter_append, hrec]
        simp
      · rw [if_neg hd', hs d', List.filter_append]
        have hr0 : ([r].filter fun x => x.date == d') = [] := by simp [hd']
        rw [hr0, List.append_nil]
    have hnd' : (((H ++ [r]) ++ rs).map fun y => (y.name, y.date)).Nodup := by
      simpa [List.append_assoc] using hnd
    have hres := ih (H ++ [r]) (mark_attendance s r.name r.date r.time true).2 hnd' hstep d
    simpa [markList, List.append_assoc] using hres

/-- C7: round-trip.  Marking a batch of rows with pairwise distinct
(name, date) keys from an empty ledger, then reloading each involved date
and taking the union, recovers exactly the written rows. -/
theorem mark_roundtrip (L : List Record)
    (hnd : (L.map fun r => (r.name, r.date)).Nodup) (r : Record) :
    r ∈ L ↔
      ∃ d ∈ L.map Record.date,
        r ∈ get_attendance_by_date (markList L emptyStore) d := by
  have hall : ∀ d, readPartition (markList L emptyStore) d
      = L.filter fun x => x.date == d := by
    intro d
    have hres := markList_readPartition L [] emptyStore (by simpa using hnd)
      (fun d' => by simp [emptyStore, readPartition, lookupPart]) d
    simpa using hres
  constructor
  · intro hr
    refine ⟨r.date, List.mem_map.mpr ⟨r, hr, rfl⟩, ?_⟩
    simp [get_attendance_by_date, hall, List.mem_filter, hr]
  · rintro ⟨d, _, hrd⟩
    rw [get_attendance_by_date, hall d] at hrd
    exact (List.mem_filter.mp hrd).1

/-- Witness for C7: one row of the three-row two-date batch is recovered by
reloading. -/
theorem mark_roundtrip_wit :
    ({ name := "Bob", date := "2024-01-01", time := "09:05:00" } : Record) ∈ threeRecords ↔
      ∃ d ∈ threeRecords.map Record.date,
        ({ name := "Bob", date := "2024-01-01", time := "09:05:00" } : Record) ∈
          get_attendance_by_date (markList threeRecords emptyStore) d :=
  mark_roundtrip threeRecords (by decide)
    { name := "Bob", date := "2024-01-01", time := "09:05:00" }

/-- C9: listing attendance dates returns exactly the dates having a
partition file, in strictly descending lexicographic order of the date
strings (compared character by character, as Python compares str). -/
theorem get_all_attendance_dates_desc (s : Store)
    (h : (s.map Prod.fst).Nodup) :
    (∀ d, d ∈ get_all_attendance_dates s ↔ (lookupPart s d).isSome = true) ∧
    List.Sorted (fun a b : String => b.data < a.data) (get_all_attendance_dates s) := by
  constructor
  · intro d
    rw [get_all_attendance_dates, List.mem_insertionSort]
    exact (lookupPart_isSome_iff s d).symm
  · haveI ht : IsTotal String fun a b => b.data ≤ a.data := ⟨fun a b => le_total b.data a.data⟩
    haveI htr : IsTrans String fun a b => b.data ≤ a.data :=
      ⟨fun _ _ _ hab hbc => le_trans hbc hab⟩
    have hsorted : List.Sorted (fun a b : String => b.data ≤ a.data)
        (get_all_attendance_dates s) := List.sorted_insertionSort _ _
    have hnd : (get_all_attendance_dates s).Nodup :=
      ((List.perm_insertionSort _ _).nodup_iff).mpr h
    have hpair := List.Pairwise.and hsorted hnd
    refine hpair.imp ?_
    rintro a b ⟨hle, hne⟩
    refine lt_of_le_of_ne hle fun hdd => hne ?_
    cases a with
    | mk la => cases b with
      | mk lb => exact congrArg String.mk hdd.symm

/-- Witness for C9 on the concrete two-date store. -/
theorem get_all_attendance_dates_desc_wit :
    ("2024-01-02" ∈ get_all_attendance_dates twoDayStore ↔
      (lookupPart twoDayStore "2024-01-02").isSome = true) ∧
    List.Sorted (fun a b : String => b.data < a.data)
      (get_all_attendance_dates twoDayStore) :=
  ⟨(get_all_attendance_dates_desc twoDayStore (by decide)).1 "2024-01-02",
   (get_all_attendance_dates_desc twoDayStore (by decide)).2⟩

theorem predictAux_min (dist : α → α → ℚ) (q : α) (l : List (Nat × α)) :
    ∀ best : Nat × ℚ, (predictAux dist q l best).2 ≤ best.2 ∧
      ∀ sp ∈ l, (predictAux dist q l best).2 ≤ dist sp.2 q := by
  induction l with
  | nil =>
    intro best
    exact ⟨le_refl _, by simp⟩
  | cons sp rest ih =>
    intro best
    by_cases hlt : dist sp.2 q < best.2
    · obtain ⟨h1, h2⟩ := ih (sp.1, dist sp.2 q)
      have heq : predictAux dist q (sp :: rest) best
          = predictAux dist q rest (sp.1, dist sp.2 q) := by
        simp [predictAux, hlt]
      rw [heq]
      refine ⟨le_trans h1 (le_of_lt hlt), ?_⟩
      intro x hx
      rcases List.mem_cons.mp hx with hx | hx
      · subst hx; exact h1
      · exact h2 x hx
    · obtain ⟨h1, h2⟩ := ih best
      have hge : best.2 ≤ dist sp.2 q := not_lt.mp hlt
      have heq : predictAux dist q (sp :: rest) best
          = predictAux dist q rest best := by
        simp [predictAux, hlt]
      rw [heq]
      refine ⟨h1, ?_⟩
      intro x hx
      rcases List.mem_cons.mp hx with hx | hx
      · subst hx; exact le_trans h1 hge
      · exact h2 x hx

theorem predictAux_mem (dist : α → α → ℚ) (q : α) (l : List (Nat × α)) :
    ∀ best : Nat × ℚ, predictAux dist q l best = best ∨
      ∃ sp ∈ l, predictAux dist q l best = (sp.1, dist sp.2 q) := by
  induction l with
  | nil => intro best; exact Or.inl rfl
  | cons sp rest ih =>
    intro best
    by_cases hlt : dist sp.2 q < best.2
    · have heq : predictAux dist q (sp :: rest) best
          = predictAux dist q rest (sp.1, dist sp.2 q) := by simp [predictAux, hlt]
      rcases ih (sp.1, dist sp.2 q) with h | ⟨x, hx, h⟩
      · exact Or.inr ⟨sp, List.mem_cons_self sp rest, heq.trans h⟩
      · exact Or.inr ⟨x, List.mem_cons_of_mem sp hx, heq.trans h⟩
    · have heq : predictAux dist q (sp :: rest) best
          = predictAux dist q rest best := by simp [predictAux, hlt]
      rcases ih best with h | ⟨x, hx, h⟩
      · exact Or.inl (heq.trans h)
      · exact Or.inr ⟨x, List.mem_cons_of_mem sp hx, heq.trans h⟩

theorem predict_min (dist : α → α → ℚ) (q : α) (l : List (Nat × α)) :
    ∀ sp ∈ l, (predict dist q l).2 ≤ dist sp.2 q := by
  cases l with
  | nil => simp
  | cons sp0 rest =>
    intro x hx
    obtain ⟨h1, h2⟩ := predictAux_min dist q rest (sp0.1, dist sp0.2 q)
    rcases List.mem_cons.mp hx with hx | hx
    · subst hx; simpa [predict] using h1
    · simpa [predict] using h2 x hx

theorem predict_mem (dist : α → α → ℚ) (q : α) (l : List (Nat × α)) (h : l ≠ []) :
    ∃ sp ∈ l, predict dist q l = (sp.1, dist sp.2 q) := by
  cases l with
  | nil => exact absurd rfl h
  | cons sp0 rest =>
    rcases predictAux_mem dist q rest (sp0.1, dist sp0.2 q) with h0 | ⟨x, hx, h0⟩
    · exact ⟨sp0, List.mem_cons_self sp0 rest, by simpa [predict] using h0⟩
    · exact ⟨x, List.mem_cons_of_mem sp0 hx, by simpa [predict] using h0⟩

/-- C3: acceptance is strict.  On a trained gallery the predicted distance
is the minimum distance to any training sample and is attained by a sample
whose label is reported; when it is strictly below the threshold the result
carries that label's registered name and confidence
max(0, 1 - distance/threshold), and when it is greater than or equal to the
threshold (in particular exactly equal) the result is Unknown with
confidence 0. -/
theorem recognize_face_threshold (dist : α → α → ℚ) (g : Gallery α)
    (threshold : ℚ) (q : α) (hT : g.is_trained = true) (hne : g.samples ≠ []) :
    (∀ sp ∈ g.samples, (predict dist q g.samples).2 ≤ dist sp.2 q) ∧
    (∃ sp ∈ g.samples, sp.1 = (predict dist q g.samples).1 ∧
      dist sp.2 q = (predict dist q g.samples).2) ∧
    ((predict dist q g.samples).2 < threshold →
      recognize_face dist g threshold q =
        { name := lookupLabel g.label_map (predict dist q g.samples).1
          confidence := max 0 (1 - (predict dist q g.samples).2 / threshold)
          distance := (predict dist q g.samples).2 }) ∧
    (threshold ≤ (predict dist q g.samples).2 →
      recognize_face dist g threshold q =
        { name := "Unknown", confidence := 0
          distance := (predict dist q g.samples).2 }) := by
  refine ⟨predict_min dist q g.samples, ?_, ?_, ?_⟩
  · obtain ⟨sp, hsp, hp⟩ := predict_mem dist q g.samples hne
    exact ⟨sp, hsp, by rw [hp], by rw [hp]⟩
  · intro hlt
    simp [recognize_face, hT, hlt]
  · intro hge
    have hnlt : ¬ (predict dist q g.samples).2 < threshold := not_lt.mpr hge
    simp [recognize_face, hT, hnlt]

/-- Witness for C3: threshold 2; a query at distance exactly 2 is rejected,
a query at distance 1 is accepted with confidence 1/2. -/
theorem recognize_face_threshold_wit :
    recognize_face cexDist witGallery 2 (7 : ℚ) =
      { name := "Unknown", confidence := 0, distance := 2 } ∧
    recognize_face cexDist witGallery 2 (6 : ℚ) =
      { name := "A", confidence := 1 / 2, distance := 1 } := by
  have hp7 : predict cexDist (7 : ℚ) witGallery.samples = (0, 2) := by
    simp only [witGallery, predict, predictAux, cexDist]
    norm_num
  have hp6 : predict cexDist (6 : ℚ) witGallery.samples = (0, 1) := by
    simp only [witGallery, predict, predictAux, cexDist]
    norm_num
  constructor
  · have h := (recognize_face_threshold cexDist witGallery 2 (7 : ℚ) rfl
      (by simp [witGallery])).2.2.2 (by rw [hp7])
    rw [h, hp7]
  · have h := (recognize_face_threshold cexDist witGallery 2 (6 : ℚ) rfl
      (by simp [witGallery])).2.2.1 (by rw [hp6]; norm_num)
    rw [h, hp6]
    simp only [lookupLabel, witGallery]
    norm_num

/-- C4: an untrained gallery forces the Unknown result with confidence 0 and
the sentinel distance 999, for every input descriptor. -/
theorem recognize_face_untrained (dist : α → α → ℚ) (g : Gallery α)
    (threshold : ℚ) (q : α) (hT : g.is_trained = false) :
    recognize_face dist g threshold q =
      { name := "Unknown", confidence := 0, distance := 999 } := by
  simp [recognize_face, hT]

/-- Witness for C4 on the concrete untrained gallery. -/
theorem recognize_face_untrained_wit :
    recognize_face cexDist untrainedGallery 100 (3 : ℚ) =
      { name := "Unknown", confidence := 0, distance := 999 } :=
  recognize_face_untrained cexDist untrainedGallery 100 3 rfl

/-- Counterexample to C5 as stated: identity Y (label 1) is enrolled with
training descriptor 1, the metric is zero on identical descriptors, yet
classifying that very descriptor reports X, the identity enrolled first with
the same descriptor, not Y. -/
theorem recognize_face_identical_descriptor_cex :
    cexGallery.is_trained = true ∧
    (1, (1 : ℚ)) ∈ cexGallery.samples ∧
    lookupLabel cexGallery.label_map 1 = "Y" ∧
    cexDist (1 : ℚ) 1 = 0 ∧
    recognize_face cexDist cexGallery 100 (1 : ℚ) =
      { name := "X", confidence := 1, distance := 0 } ∧
    "X" ≠ "Y" := by
  have hp : predict cexDist (1 : ℚ) cexGallery.samples = (0, 0) := by
    simp only [cexGallery, predict, predictAux, cexDist]
    norm_num
  refine ⟨rfl, by simp [cexGallery], by simp [lookupLabel, cexGallery], by norm_num [cexDist],
    ?_, by decide⟩
  have hbody : recognize_face cexDist cexGallery 100 (1 : ℚ) =
      { name := lookupLabel cexGallery.label_map (predict cexDist (1 : ℚ) cexGallery.samples).1
        confidence := max 0 (1 - (predict cexDist (1 : ℚ) cexGallery.samples).2 / 100)
        distance := (predict cexDist (1 : ℚ) cexGallery.samples).2 } := by
    have hlt : (predict cexDist (1 : ℚ) cexGallery.samples).2 < 100 := by rw [hp]; norm_num
    have hTc : cexGallery.is_trained = true := rfl
    simp [recognize_face, hTc, hlt]
  rw [hbody, hp]
  simp only [lookupLabel, cexGallery]
  norm_num

/-- C5 amended: classifying a query identical to a training descriptor of an
enrolled identity returns that identity with distance 0 and confidence 1,
provided no training sample of another label is also at distance 0 from the
query (without that proviso the earlier-enrolled colliding label wins). -/
theorem recognize_face_identical_descriptor (dist : α → α → ℚ) (g : Gallery α)
    (threshold : ℚ) (label : Nat) (d : α) (nm : String)
    (hT : g.is_trained = true)
    (hmem : (label, d) ∈ g.samples)
    (hnonneg : ∀ sp ∈ g.samples, 0 ≤ dist sp.2 d)
    (hself : dist d d = 0)
    (huniq : ∀ sp ∈ g.samples, dist sp.2 d = 0 → sp.1 = label)
    (hthr : 0 < threshold)
    (hnm : lookupLabel g.label_map label = nm) :
    recognize_face dist g threshold d =
      { name := nm, confidence := 1, distance := 0 } := by
  have hne : g.samples ≠ [] := List.ne_nil_of_mem hmem
  obtain ⟨sp, hsp, hpred⟩ := predict_mem dist d g.samples hne
  have hmin := predict_min dist d g.samples (label, d) hmem
  rw [hself] at hmin
  have hge : 0 ≤ (predict dist d g.samples).2 := by
    rw [hpred]; exact hnonneg sp hsp
  have hzero : (predict dist d g.samples).2 = 0 := le_antisymm hmin hge
  have hspz : dist sp.2 d = 0 := by
    have hsnd := congrArg Prod.snd hpred
    rw [hzero] at hsnd
    exact hsnd.symm
  have hlab : (predict dist d g.samples).1 = label := by
    have hfst := congrArg Prod.fst hpred
    rw [hfst]
    exact huniq sp hsp hspz
  have hlt : (predict dist d g.samples).2 < threshold := by rw [hzero]; exact hthr
  have hbody : recognize_face dist g threshold d =
      { name := lookupLabel g.label_map (predict dist d g.samples).1
        confidence := max 0 (1 - (predict dist d g.samples).2 / threshold)
        distance := (predict dist d g.samples).2 } := by
    simp [recognize_face, hT, hlt]
  rw [hbody, hlab, hnm, hzero]
  norm_num

/-- Witness for the amended C5: the single-identity gallery classifies its
own training descriptor back to A with distance 0 and confidence 1. -/
theorem recognize_face_identical_descriptor_wit :
    recognize_face cexDist witGallery 100 (5 : ℚ) =
      { name := "A", confidence := 1, distance := 0 } :=
  recognize_face_identical_descriptor cexDist witGallery 100 0 5 "A" rfl
    (by simp [witGallery])
    (by intro sp hsp; simp [witGallery] at hsp; subst hsp; norm_num [cexDist])
    (by norm_num [cexDist])
    (by intro sp hsp _; simp [witGallery] at hsp; subst hsp; rfl)
    (by norm_num)
    (by simp [lookupLabel, witGallery])

theorem map_name_bump (l : List FaceDir) (nm : String) :
    (l.map fun e => if e.name == nm then { e with images := e.images + 1 } else e).map
      FaceDir.name = l.map FaceDir.name := by
  rw [List.map_map]
  apply List.map_congr_left
  intro a _
  by_cases h : (a.name == nm) = true
  · simp only [Function.comp_apply, if_pos h]
  · simp only [Function.comp_apply, if_neg h]

theorem any_name_iff (dirs : List FaceDir) (nm : String) :
    (dirs.any fun e => e.name == nm) = true ↔ nm ∈ dirs.map FaceDir.name := by
  rw [List.any_eq_true]
  constructor
  · rintro ⟨e, he, hb⟩
    exact List.mem_map.mpr ⟨e, he, by simpa [beq_iff_eq] using hb⟩
  · intro hm
    rcases List.mem_map.mp hm with ⟨e, he, hn⟩
    exact ⟨e, he, by simp [beq_iff_eq, hn]⟩

theorem add_new_face_snd (dirs : List FaceDir) (nm : String) (faceOk : Bool) :
    (add_new_face dirs nm faceOk).2 =
      if faceOk then
        (if dirs.any fun e => e.name == nm then dirs
         else dirs ++ [{ name := nm, images := 0 }]).map
          fun e => if e.name == nm then { e with images := e.images + 1 } else e
      else
        (if dirs.any fun e => e.name == nm then dirs
         else dirs ++ [{ name := nm, images := 0 }]) := by
  cases faceOk <;> rfl

theorem add_new_face_names (dirs : List FaceDir) (nm : String) (faceOk : Bool) :
    (add_new_face dirs nm faceOk).2.map FaceDir.name =
      if nm ∈ dirs.map FaceDir.name then dirs.map FaceDir.name
      else dirs.map FaceDir.name ++ [nm] := by
  rw [add_new_face_snd]
  by_cases hm : nm ∈ dirs.map FaceDir.name
  · have hany : (dirs.any fun e => e.name == nm) = true := (any_name_iff dirs nm).mpr hm
    rw [if_pos hm]
    cases faceOk with
    | false => rw [if_neg Bool.false_ne_true, if_pos hany]
    | true => rw [if_pos rfl, if_pos hany, map_name_bump]
  · have hany : ¬ (dirs.any fun e => e.name == nm) = true := fun hc =>
      hm ((any_name_iff dirs nm).mp hc)
    rw [if_neg hm]
    cases faceOk with
    | false =>
      rw [if_neg Bool.false_ne_true, if_neg hany, List.map_append]
      rfl
    | true =>
      rw [if_pos rfl, if_neg hany, map_name_bump, List.map_append]
      rfl

theorem load_label_map_snd (dirs : List FaceDir) :
    (load_label_map dirs).map Prod.snd = dirs.map FaceDir.name := by
  unfold load_label_map
  rw [List.map_map]
  have hcomp : (Prod.snd ∘ fun e : Nat × FaceDir => (e.1, e.2.name))
      = fun e : Nat × FaceDir => e.2.name := rfl
  rw [hcomp]
  have h2 : (dirs.enum.map fun e : Nat × FaceDir => e.2.name)
      = (dirs.enum.map Prod.snd).map FaceDir.name := by
    rw [List.map_map]; rfl
  rw [h2, List.enum_map_snd]

/-- C8: enrollment never duplicates an identity.  In every known-faces
directory state reachable by add_new_face calls the per-person directory
names are pairwise distinct, the label map built by load_known_faces
assigns each enrolled name exactly one label, and enrolling further samples
for an already-enrolled name leaves the directory (and hence label) set
unchanged. -/
theorem add_new_face_unique_labels (dirs : List FaceDir) (h : DirsReachable dirs) :
    (dirs.map FaceDir.name).Nodup ∧
    (∀ nm ∈ dirs.map FaceDir.name,
      ((load_label_map dirs).map Prod.snd).count nm = 1) ∧
    (∀ nm faceOk, nm ∈ dirs.map FaceDir.name →
      (add_new_face dirs nm faceOk).2.map FaceDir.name = dirs.map FaceDir.name) := by
  have hnodup : (dirs.map FaceDir.name).Nodup := by
    induction h with
    | init => simp
    | add nm faceOk _ ih =>
      rename_i dirs₀ _
      rw [add_new_face_names]
      by_cases hm : nm ∈ dirs₀.map FaceDir.name
      · simpa [hm] using ih
      · rw [if_neg hm, List.nodup_append]
        refine ⟨ih, List.nodup_singleton nm, ?_⟩
        intro x hx
        simp only [List.mem_singleton]
        intro hxe
        exact hm (hxe ▸ hx)
  refine ⟨hnodup, ?_, ?_⟩
  · intro nm hm
    rw [load_label_map_snd]
    exact List.count_eq_one_of_mem hnodup hm
  · intro nm faceOk hm
    rw [add_new_face_names, if_pos hm]

/-- Witness for C8: A enrolled twice with a sample each time; the directory
names stay duplicate-free, A keeps a single label, and one further call for
A changes no directory name. -/
theorem add_new_face_unique_labels_wit :
    (((add_new_face (add_new_face [] "A" true).2 "A" true).2.map FaceDir.name).Nodup) ∧
    ((load_label_map (add_new_face (add_new_face [] "A" true).2 "A" true).2).map
        Prod.snd).count "A" = 1 ∧
    (add_new_face (add_new_face (add_new_face [] "A" true).2 "A" true).2 "A" false).2.map
        FaceDir.name =
      (add_new_face (add_new_face [] "A" true).2 "A" true).2.map FaceDir.name := by
  have h := add_new_face_unique_labels (add_new_face (add_new_face [] "A" true).2 "A" true).2
    (DirsReachable.add "A" true (DirsReachable.add "A" true DirsReachable.init))
  exact ⟨h.1, h.2.1 "A" (by decide), h.2.2 "A" false (by decide)⟩

end FaceAttendance
